import Mathlib

/-!
Shallow embedding of the receptor state-aggregation subsystem of
`src/Analysis/chemotaxis_model.py` (ScienceStacks/BioCellControl).

Numeric model: simulation series are lists of `NpFloat`, an exact-rational
model of IEEE floating point values restricted to finite rationals plus
`inf`, `neginf` and `nan` (the special values that numpy division by zero
produces).  Python's builtin `sum` starting from the integer `0`, and its
broadcasting against numpy arrays, is modelled by `NpVal`/`pySum`.
Fallible Python code (swallowed exceptions, `raise`) is modelled with
`Option`/`Except`.
-/

namespace BioCellControl

/-- Model of a numpy float64 value: a finite rational, an infinity, or NaN. -/
inductive NpFloat where
  | fin : ℚ → NpFloat
  | inf : NpFloat
  | neginf : NpFloat
  | nan : NpFloat
  deriving DecidableEq, Repr

/-- IEEE-style addition on `NpFloat` (exact on finite values). -/
def npAdd : NpFloat → NpFloat → NpFloat
  | .nan, _ => .nan
  | _, .nan => .nan
  | .inf, .neginf => .nan
  | .neginf, .inf => .nan
  | .inf, _ => .inf
  | _, .inf => .inf
  | .neginf, _ => .neginf
  | _, .neginf => .neginf
  | .fin a, .fin b => .fin (a + b)

/-- IEEE-style division on `NpFloat` (exact on finite values): numpy's
`x / 0` yields `inf`/`neginf`/`nan` depending on the sign of `x`. -/
def npDiv : NpFloat → NpFloat → NpFloat
  | .nan, _ => .nan
  | _, .nan => .nan
  | .inf, .inf => .nan
  | .inf, .neginf => .nan
  | .neginf, .inf => .nan
  | .neginf, .neginf => .nan
  | .inf, .fin b => if b < 0 then .neginf else .inf
  | .neginf, .fin b => if b < 0 then .inf else .neginf
  | .fin _, .inf => .fin 0
  | .fin _, .neginf => .fin 0
  | .fin a, .fin b =>
      if b = 0 then
        (if a = 0 then .nan else if 0 < a then .inf else .neginf)
      else .fin (a / b)

instance : Zero NpFloat := ⟨.fin 0⟩

instance : Add NpFloat := ⟨npAdd⟩

instance : AddCommMonoid NpFloat where
  add_assoc x y z := by
    show npAdd (npAdd x y) z = npAdd x (npAdd y z)
    cases x <;> cases y <;> cases z <;> simp [npAdd, add_assoc]
  zero_add x := by
    show npAdd (.fin 0) x = x
    cases x <;> simp [npAdd]
  add_zero x := by
    show npAdd x (.fin 0) = x
    cases x <;> simp [npAdd]
  add_comm x y := by
    show npAdd x y = npAdd y x
    cases x <;> cases y <;> simp [npAdd, add_comm]
  nsmul := nsmulRec

/-- A simulation time series: one numeric value per sample point. -/
abbrev Series := List NpFloat

/-- The simulation result table: maps a species/reaction name to its column,
`none` when the name is absent (Python raises `KeyError` on lookup). -/
abbrev SimResult := String → Option Series

/-- A Python value arising from `sum(list_of_arrays)`: either the integer
scalar start value `0` (when the list is empty) or a numpy array. -/
inductive NpVal where
  | scalar : ℤ → NpVal
  | arr : List NpFloat → NpVal
  deriving DecidableEq, Repr

/-- Addition on `NpVal`, with numpy broadcasting of scalars over arrays. -/
def npvAdd : NpVal → NpVal → NpVal
  | .scalar a, .scalar b => .scalar (a + b)
  | .scalar a, .arr xs => .arr (xs.map (fun x => npAdd (.fin (a : ℚ)) x))
  | .arr xs, .scalar b => .arr (xs.map (fun x => npAdd x (.fin (b : ℚ))))
  | .arr xs, .arr ys => .arr (List.zipWith npAdd xs ys)

/-- Python's builtin `sum`: folds `+` over the list starting from `0`. -/
def pySum (l : List NpVal) : NpVal := l.foldl npvAdd (.scalar 0)

/-- `State._makeName`: derive the canonical species name from the
attribute tuple, following the source's incremental construction. -/
def makeName (is_ligand is_phosphorylated : Bool) (methylation : ℕ) : String :=
  let name := if is_ligand then "LT" else "T"
  let name := name ++ toString methylation
  let name := if is_phosphorylated then name ++ "p" else name
  name

/-- `State`: one receptor micro-state.  `data` is `none` when the derived
name is absent from the simulation result (the source catches the lookup
exception and falls through, leaving the attribute set to Python `None`);
`nominal` is `none` until `setNominalValue` runs. -/
structure State where
  is_ligand : Bool
  is_phosphorylated : Bool
  methylation : ℕ
  name : String
  data : Option Series
  nominal : Option Series

/-- `State._extractData`: look the derived name up in the result table; a
missing name is swallowed (`except: ... pass`) and yields Python `None`. -/
def extractData (simulation_result : SimResult) (name : String) :
    Option Series :=
  simulation_result name

/-- `State.__init__`: store the attributes, derive the name, extract data. -/
def mkState (is_ligand is_phosphorylated : Bool) (methylation : ℕ)
    (simulation_result : SimResult) : State :=
  let name := makeName is_ligand is_phosphorylated methylation
  { is_ligand := is_ligand
    is_phosphorylated := is_phosphorylated
    methylation := methylation
    name := name
    data := extractData simulation_result name
    nominal := none }

/-- Element-wise division of a raw series by the adjustment value
(`State.setNominalValue`: `self._data/adjustment`). -/
def divSeries (d : Series) (adjustment : NpVal) : Series :=
  match adjustment with
  | .scalar c => d.map (fun x => npDiv x (.fin (c : ℚ)))
  | .arr t => List.zipWith npDiv d t

/-- `State.setNominalValue`: store the nominal (fraction-of-total) series. -/
def setNominalValue (s : State) (adjustment : NpVal) : State :=
  { s with nominal := s.data.map (fun d => divSeries d adjustment) }

/-- The ligand domain iterated by `ReceptorStates._makeStates`. -/
def is_ligands : List Bool := [false, true]

/-- The phosphorylation domain iterated by `ReceptorStates._makeStates`. -/
def is_phosphorylateds : List Bool := [false, true]

/-- The methylation domain iterated by `ReceptorStates._makeStates`. -/
def methylations : List ℕ := [2, 3, 4]

/-- The nested enumeration loop of `ReceptorStates._makeStates`
(ligand outermost, then phosphorylation, then methylation innermost). -/
def makeStatesList (result : SimResult) : List State :=
  (is_ligands.map (fun l =>
    (is_phosphorylateds.map (fun p =>
      methylations.map (fun m => mkState l p m result))).flatten)).flatten

/-- `ReceptorStates.selectStates`: the states satisfying the predicate, in
enumeration order. -/
def selectStates (states : List State) (func : Bool → Bool → ℕ → Bool) :
    List State :=
  states.filter (fun s => func s.is_ligand s.is_phosphorylated s.methylation)

/-- `ReceptorStates.sumStates`: Python `sum` of the raw data of the selected
states.  `none` models the `TypeError` raised when a selected state's data
is Python `None`. -/
def sumStates (states : List State) (func : Bool → Bool → ℕ → Bool) :
    Option NpVal :=
  ((selectStates states func).mapM State.data).map
    (fun ds => pySum (ds.map NpVal.arr))

/-- `ReceptorStates.frcStates`: Python `sum` of the nominal data of the
selected states. -/
def frcStates (states : List State) (func : Bool → Bool → ℕ → Bool) :
    Option NpVal :=
  ((selectStates states func).mapM State.nominal).map
    (fun ds => pySum (ds.map NpVal.arr))

/-- `ReceptorStates._makeStates`: enumerate the states, compute the global
total once with the always-true predicate, then set every state's nominal
series by dividing by that total. -/
def makeStates (result : SimResult) : Option (List State) :=
  let states := makeStatesList result
  match sumStates states (fun _ _ _ => true) with
  | none => none
  | some total => some (states.map (fun s => setNominalValue s total))

/-- The matcher returned by `StateAggregationFactory._getFunc` for one
pattern position: wildcard, `lambda x: x`, `lambda x: not x`, or
`lambda x: x == <digit>`. -/
inductive Matcher where
  | wild : Matcher
  | isTrue : Matcher
  | isFalse : Matcher
  | eqNum : ℤ → Matcher
  deriving DecidableEq, Repr

/-- Python `int(letter)` on a one-character string: its value when the
character is a decimal digit, `none` (a raised `ValueError`) otherwise. -/
def charToInt (c : Char) : Option ℤ :=
  if 48 ≤ c.toNat ∧ c.toNat ≤ 57 then some ((c.toNat - 48 : ℕ) : ℤ) else none

/-- The invalid-character message raised by `_getFunc`. -/
def invalidMsg (name : List Char) (letter : Char) (position : ℕ) : String :=
  "In name " ++ String.mk name ++ ", the character " ++
    String.mk [letter] ++ " in position " ++ toString position ++
    " is invalid."

/-- `StateAggregationFactory._getFunc`: interpret one pattern character.
The validation function returns `none` when the Python callable raises
(the source catches that and treats the character as invalid); the final
`.error` branches model the raised `ValueError`s.  The `charToInt ... none`
branch models the uncaught `int(letter)` exception inside the
`isinstance(int(letter), int)` test (unreachable from `v`). -/
def getFunc (name : List Char) (position : ℕ)
    (validation : Char → Option Bool) : Except String Matcher :=
  match name[position]? with
  | none => .error "IndexError: string index out of range"
  | some letter =>
    if letter = '_' then .ok .wild
    else
      let is_valid := (validation letter).getD false
      if is_valid ∧ letter = 'T' then .ok .isTrue
      else if is_valid ∧ letter = 'F' then .ok .isFalse
      else if is_valid then
        match charToInt letter with
        | some k => .ok (.eqNum k)
        | none => .error "ValueError: invalid literal for int()"
      else .error (invalidMsg name letter position)

/-- Apply a matcher to a boolean attribute, with Python truthiness
(`True == n` compares as `1 == n`). -/
def applyB : Matcher → Bool → Bool
  | .wild, _ => true
  | .isTrue, x => x
  | .isFalse, x => !x
  | .eqNum k, x => decide ((if x then (1 : ℤ) else 0) = k)

/-- Apply a matcher to the integer methylation attribute, with Python
truthiness (`lambda x: x` on an int is truthy iff nonzero). -/
def applyM : Matcher → ℕ → Bool
  | .wild, _ => true
  | .isTrue, m => decide (m ≠ 0)
  | .isFalse, m => decide (m = 0)
  | .eqNum k, m => decide ((m : ℤ) = k)

/-- The validation callable for the two boolean positions:
`lambda x: x in ["T", "F"]` (never raises). -/
def validBool (x : Char) : Option Bool :=
  some (x = 'T' || x = 'F')

/-- The validation callable for the methylation position:
`lambda x: isinstance(int(x),int) and int(x) > 1 and int(x) < 5`
(raises — `none` — when `int(x)` does). -/
def validMeth (x : Char) : Option Bool :=
  (charToInt x).map (fun k => decide (1 < k) && decide (k < 5))

/-- `StateAggregationFactory.v`: validate the 4-character pattern, build
the conjunctive predicate, and dispatch on the leading character
(`'t'` to `sumStates`, anything else to `frcStates`). -/
def v (states : List State) (name : List Char) : Except String NpVal :=
  if name.length ≠ 4 then .error "Name must be 4 characters."
  else do
    let lfunc ← getFunc name 1 validBool
    let pfunc ← getFunc name 2 validBool
    let mfunc ← getFunc name 3 validMeth
    let func := fun l p m => applyB lfunc l && applyB pfunc p && applyM mfunc m
    let res := if name[0]? = some 't'
      then sumStates states func
      else frcStates states func
    match res with
    | some value => .ok value
    | none => .error "TypeError: unsupported operand type(s)"

/-- Division on `NpVal` with numpy broadcasting. -/
def npvDiv : NpVal → NpVal → NpVal
  | .scalar a, .scalar b => .scalar (a / b)
  | .scalar a, .arr ys => .arr (ys.map (fun y => npDiv (.fin (a : ℚ)) y))
  | .arr xs, .scalar b => .arr (xs.map (fun x => npDiv x (.fin (b : ℚ))))
  | .arr xs, .arr ys => .arr (List.zipWith npDiv xs ys)

/-- The non-special resolution path of `ChemotaxisModel.getVariable`: try
the aggregation factory (any raised error is swallowed), then fall back to
a direct column lookup in the simulation result. -/
def resolvePlain (result : SimResult) (states : List State)
    (name : String) : Option NpVal :=
  match v states name.data with
  | .ok value => some value
  | .error _ => (result name).map NpVal.arr

/-- `ChemotaxisModel.getYpFraction`: `Yp / (Yp + Y)`, with both operands
resolved through `getVariable` (for these names: the plain path). -/
def getYpFraction (result : SimResult) (states : List State) :
    Except String NpVal :=
  match resolvePlain result states "Yp" with
  | none => .error "Variable Yp not found."
  | some yp =>
    match resolvePlain result states "Y" with
    | none => .error "Variable Y not found."
    | some y => .ok (npvDiv yp (npvAdd yp y))

/-- `ChemotaxisModel.getBpFraction`: `Bp / (Bp + B)`. -/
def getBpFraction (result : SimResult) (states : List State) :
    Except String NpVal :=
  match resolvePlain result states "Bp" with
  | none => .error "Variable Bp not found."
  | some bp =>
    match resolvePlain result states "B" with
    | none => .error "Variable B not found."
    | some b => .ok (npvDiv bp (npvAdd bp b))

/-- `ChemotaxisModel.getVariable`: resolve a variable name through the
reserved names, the aggregation factory, and the raw result columns; raise
`ValueError("Variable <name> not found.")` when every path fails. -/
def getVariable (result : SimResult) (states : List State)
    (name : String) : Except String NpVal :=
  if name = "time" then
    match result "time" with
    | some d => .ok (.arr d)
    | none => .error "KeyError: time"
  else if name = "fYp" then getYpFraction result states
  else if name = "fBp" then getBpFraction result states
  else
    match resolvePlain result states name with
    | some value => .ok value
    | none => .error ("Variable " ++ name ++ " not found.")

/-! ### Auxiliary predicates on pattern characters -/

/-- A character that is illegal at a boolean pattern position
(not the wildcard and not `T`/`F`). -/
def badBool (c : Char) : Bool :=
  !(c = '_' || c = 'T' || c = 'F')

/-- A character that is illegal at the methylation pattern position
(not the wildcard and not a digit in `{2,3,4}`). -/
def badMeth (c : Char) : Bool :=
  !(c = '_' || c = '2' || c = '3' || c = '4')

/-- The attribute tuple of a state. -/
def stateAttrs (s : State) : Bool × Bool × ℕ :=
  (s.is_ligand, s.is_phosphorylated, s.methylation)

/-- The attribute tuples in the fixed enumeration order of
`ReceptorStates._makeStates`: ligand outermost, then phosphorylation,
then methylation innermost. -/
def tupleList : List (Bool × Bool × ℕ) :=
  [(false, false, 2), (false, false, 3), (false, false, 4),
   (false, true, 2), (false, true, 3), (false, true, 4),
   (true, false, 2), (true, false, 3), (true, false, 4),
   (true, true, 2), (true, true, 3), (true, true, 4)]

/-- A 4-character aggregation pattern with legal characters at the three
attribute positions (the leading aggregation-kind character is free). -/
def validPattern (pat : List Char) : Bool :=
  decide (pat.length = 4) && !badBool (pat.getD 1 ' ') &&
    !badBool (pat.getD 2 ' ') && !badMeth (pat.getD 3 ' ')

/-- The matcher denoted by one legal pattern character. -/
def charMatcher (c : Char) : Matcher :=
  if c = '_' then .wild
  else if c = 'T' then .isTrue
  else if c = 'F' then .isFalse
  else .eqNum ((charToInt c).getD 0)

/-- The conjunctive state predicate denoted by a pattern: one matcher per
position, applied to (ligand, phosphorylated, methylation). -/
def patternPred (pat : List Char) : Bool → Bool → ℕ → Bool :=
  fun l p m =>
    applyB (charMatcher (pat.getD 1 ' ')) l &&
      applyB (charMatcher (pat.getD 2 ' ')) p &&
        applyM (charMatcher (pat.getD 3 ' ')) m

/-- Well-formedness of a simulation result for the receptor subsystem:
every derived state name maps to the finite-valued series given by `dat`,
and all those series have the simulation's time length `nt`. -/
def WFResult (r : SimResult) (dat : Bool → Bool → ℕ → List ℚ)
    (nt : ℕ) : Prop :=
  (∀ l p m, r (makeName l p m) = some ((dat l p m).map NpFloat.fin)) ∧
  (∀ l p m, (dat l p m).length = nt)

/-- The raw data series of a state under a well-formed result. -/
def gdat (dat : Bool → Bool → ℕ → List ℚ) (s : State) : Series :=
  (dat s.is_ligand s.is_phosphorylated s.methylation).map NpFloat.fin

theorem getFunc_bool_bad (name : List Char) (pos : ℕ) (c : Char)
    (hget : name[pos]? = some c) (h : badBool c = true) :
    getFunc name pos validBool = .error (invalidMsg name c pos) := by
  simp only [badBool, Bool.not_eq_true', Bool.or_eq_false_iff,
    decide_eq_false_iff_not] at h
  obtain ⟨⟨h1, h2⟩, h3⟩ := h
  unfold getFunc
  rw [hget]
  simp [validBool, h1, h2, h3]

theorem getFunc_bool_ok (name : List Char) (pos : ℕ) (c : Char)
    (hget : name[pos]? = some c) (h : badBool c = false) :
    (c = '_' ∧ getFunc name pos validBool = .ok .wild) ∨
    (c = 'T' ∧ getFunc name pos validBool = .ok .isTrue) ∨
    (c = 'F' ∧ getFunc name pos validBool = .ok .isFalse) := by
  simp only [badBool, Bool.not_eq_false', Bool.or_eq_true_iff,
    decide_eq_true_eq] at h
  rcases h with (h | h) | h <;> subst h
  · refine .inl ⟨rfl, ?_⟩
    unfold getFunc; rw [hget]; simp
  · refine .inr (.inl ⟨rfl, ?_⟩)
    unfold getFunc; rw [hget]; simp [validBool]
  · refine .inr (.inr ⟨rfl, ?_⟩)
    unfold getFunc; rw [hget]; simp [validBool]

theorem validMeth_of_bad (c : Char) (h : badMeth c = true) :
    (validMeth c).getD false = false := by
  simp only [badMeth, Bool.not_eq_true', Bool.or_eq_false_iff,
    decide_eq_false_iff_not] at h
  obtain ⟨⟨⟨h1, h2⟩, h3⟩, h4⟩ := h
  unfold validMeth charToInt
  by_cases hd : 48 ≤ c.toNat ∧ c.toNat ≤ 57
  · rw [if_pos hd]
    simp only [Option.map_some', Option.getD_some, Bool.and_eq_false_iff,
      decide_eq_false_iff_not]
    by_cases h50 : c.toNat = 50
    · exact absurd (Char.ext (UInt32.ext
        (show c.val.toNat = ('2').val.toNat from h50))) h2
    · by_cases h51 : c.toNat = 51
      · exact absurd (Char.ext (UInt32.ext
          (show c.val.toNat = ('3').val.toNat from h51))) h3
      · by_cases h52 : c.toNat = 52
        · exact absurd (Char.ext (UInt32.ext
            (show c.val.toNat = ('4').val.toNat from h52))) h4
        · rcases Nat.lt_or_ge c.toNat 50 with hlt | hge
          · exact .inl (by omega)
          · exact .inr (by omega)
  · rw [if_neg hd]
    simp

theorem getFunc_meth_bad (name : List Char) (pos : ℕ) (c : Char)
    (hget : name[pos]? = some c) (h : badMeth c = true) :
    getFunc name pos validMeth = .error (invalidMsg name c pos) := by
  have hw : ¬ c = '_' := by
    simp only [badMeth, Bool.not_eq_true', Bool.or_eq_false_iff,
      decide_eq_false_iff_not] at h
    exact h.1.1.1
  have hv := validMeth_of_bad c h
  unfold getFunc
  rw [hget]
  simp [hw, hv]

theorem getFunc_meth_ok (name : List Char) (pos : ℕ) (c : Char)
    (hget : name[pos]? = some c) (h : badMeth c = false) :
    (c = '_' ∧ getFunc name pos validMeth = .ok .wild) ∨
    (c = '2' ∧ getFunc name pos validMeth = .ok (.eqNum 2)) ∨
    (c = '3' ∧ getFunc name pos validMeth = .ok (.eqNum 3)) ∨
    (c = '4' ∧ getFunc name pos validMeth = .ok (.eqNum 4)) := by
  simp only [badMeth, Bool.not_eq_false', Bool.or_eq_true_iff,
    decide_eq_true_eq] at h
  rcases h with ((h | h) | h) | h <;> subst h
  · refine .inl ⟨rfl, ?_⟩
    unfold getFunc; rw [hget]; simp
  · refine .inr (.inl ⟨rfl, ?_⟩)
    unfold getFunc; rw [hget]; rfl
  · refine .inr (.inr (.inl ⟨rfl, ?_⟩))
    unfold getFunc; rw [hget]; rfl
  · refine .inr (.inr (.inr ⟨rfl, ?_⟩))
    unfold getFunc; rw [hget]; rfl

/-! ### Pointwise characterization of Python sums over equal-length series -/

theorem foldl_npvAdd_arr (ds : List Series) (a : Series) :
    (ds.map NpVal.arr).foldl npvAdd (NpVal.arr a) =
      NpVal.arr (ds.foldl (fun acc x => List.zipWith npAdd acc x) a) := by
  induction ds generalizing a with
  | nil => rfl
  | cons d ds ih =>
    rw [List.map_cons, List.foldl_cons, List.foldl_cons]
    exact ih (List.zipWith npAdd a d)

theorem pySum_cons_arrs (d : Series) (ds : List Series) :
    pySum ((d :: ds).map NpVal.arr) =
      NpVal.arr (ds.foldl (fun acc x => List.zipWith npAdd acc x) d) := by
  have hz : ∀ x : NpFloat, npAdd (.fin 0) x = x := by
    intro x; cases x <;> simp [npAdd]
  have h0 : npvAdd (NpVal.scalar 0) (NpVal.arr d) = NpVal.arr d := by
    show NpVal.arr (d.map fun x => npAdd (.fin ((0 : ℤ) : ℚ)) x) = NpVal.arr d
    simp only [Int.cast_zero]
    simp [hz]
  unfold pySum
  rw [List.map_cons, List.foldl_cons, h0]
  exact foldl_npvAdd_arr ds d

theorem zip_foldl_length (ds : List Series) (a : Series)
    (h : ∀ x ∈ ds, x.length = a.length) :
    (ds.foldl (fun acc x => List.zipWith npAdd acc x) a).length = a.length := by
  induction ds generalizing a with
  | nil => rfl
  | cons d ds ih =>
    have hd : d.length = a.length := h d (by simp)
    have hza : (List.zipWith npAdd a d).length = a.length := by
      rw [List.length_zipWith, hd]; omega
    rw [List.foldl_cons,
      ih (List.zipWith npAdd a d) (fun x hx => by
        rw [hza]; exact h x (by simp [hx])), hza]

theorem zip_foldl_getD (ds : List Series) (a : Series) (i : ℕ)
    (h : ∀ x ∈ ds, x.length = a.length) (hi : i < a.length) :
    (ds.foldl (fun acc x => List.zipWith npAdd acc x) a).getD i 0 =
      a.getD i 0 + (ds.map (fun x => x.getD i 0)).sum := by
  induction ds generalizing a with
  | nil => simp
  | cons d ds ih =>
    have hd : d.length = a.length := h d (by simp)
    have hza : (List.zipWith npAdd a d).length = a.length := by
      rw [List.length_zipWith, hd]; omega
    have hzi : (List.zipWith npAdd a d).getD i 0 =
        a.getD i 0 + d.getD i 0 := by
      rw [List.getD_eq_getElem _ _ (by omega : i < (List.zipWith npAdd a d).length),
        List.getElem_zipWith, List.getD_eq_getElem _ _ hi,
        List.getD_eq_getElem _ _ (by omega : i < d.length)]
      rfl
    rw [List.foldl_cons,
      ih (List.zipWith npAdd a d) (fun x hx => by
        rw [hza]; exact h x (by simp [hx])) (by omega),
      hzi, List.map_cons, List.sum_cons, add_assoc]

theorem pySum_arr_spec (ds : List Series) (n : ℕ) (hne : ds ≠ [])
    (hl : ∀ x ∈ ds, x.length = n) :
    ∃ s, pySum (ds.map NpVal.arr) = NpVal.arr s ∧ s.length = n ∧
      ∀ i, i < n → s.getD i 0 = (ds.map (fun x => x.getD i 0)).sum := by
  obtain ⟨d, rest, rfl⟩ := List.exists_cons_of_ne_nil hne
  have hd : d.length = n := hl d (by simp)
  have hrest : ∀ x ∈ rest, x.length = d.length := by
    intro x hx; rw [hd]; exact hl x (by simp [hx])
  refine ⟨_, pySum_cons_arrs d rest, ?_, ?_⟩
  · rw [zip_foldl_length rest d hrest, hd]
  · intro i hi
    rw [zip_foldl_getD rest d i hrest (by omega), List.map_cons,
      List.sum_cons]

theorem sum_map_filter_add {α β : Type} [AddCommMonoid β] (l : List α)
    (q : α → Bool) (g : α → β) :
    ((l.filter q).map g).sum + ((l.filter (fun x => !q x)).map g).sum =
      (l.map g).sum := by
  induction l with
  | nil => simp
  | cons x l ih =>
    cases hq : q x with
    | true =>
      rw [List.filter_cons_of_pos (by simp [hq]),
        List.filter_cons_of_neg (by simp [hq]),
        List.map_cons, List.sum_cons, add_assoc, ih]
      simp
    | false =>
      rw [List.filter_cons_of_neg (by simp [hq]),
        List.filter_cons_of_pos (by simp [hq]),
        List.map_cons, List.sum_cons, add_left_comm, ih]
      simp

theorem map_fin_sum (l : List ℚ) :
    (l.map NpFloat.fin).sum = NpFloat.fin l.sum := by
  induction l with
  | nil => rfl
  | cons x l ih =>
    rw [List.map_cons, List.sum_cons, List.sum_cons, ih]
    rfl

/-! ### Structure of the constructed receptor states -/

theorem makeStatesList_eq (r : SimResult) :
    makeStatesList r =
      [mkState false false 2 r, mkState false false 3 r,
       mkState false false 4 r, mkState false true 2 r,
       mkState false true 3 r, mkState false true 4 r,
       mkState true false 2 r, mkState true false 3 r,
       mkState true false 4 r, mkState true true 2 r,
       mkState true true 3 r, mkState true true 4 r] := rfl

theorem mapM_eq_map (proj : State → Option Series) (g : State → Series)
    (sts : List State) (h : ∀ s ∈ sts, proj s = some (g s)) :
    sts.mapM proj = some (sts.map g) := by
  induction sts with
  | nil => rfl
  | cons s l ih =>
    rw [List.mapM_cons, h s (by simp), ih (fun x hx => h x (by simp [hx]))]
    rfl

theorem aggStates_spec (proj : State → Option Series) (g : State → Series)
    (sts : List State) (f : Bool → Bool → ℕ → Bool) (n : ℕ)
    (hdata : ∀ s ∈ sts, proj s = some (g s))
    (hlen : ∀ s ∈ sts, (g s).length = n)
    (hne : selectStates sts f ≠ []) :
    ∃ u, ((selectStates sts f).mapM proj).map
        (fun ds => pySum (ds.map NpVal.arr)) = some (NpVal.arr u) ∧
      u.length = n ∧
      ∀ i, i < n → u.getD i 0 =
        ((selectStates sts f).map (fun s => (g s).getD i 0)).sum := by
  have hsub : ∀ s ∈ selectStates sts f, s ∈ sts :=
    fun s hs => List.mem_of_mem_filter hs
  have hmapM := mapM_eq_map proj g (selectStates sts f)
    (fun s hs => hdata s (hsub s hs))
  have hds_ne : (selectStates sts f).map g ≠ [] := by
    simpa using hne
  have hds_len : ∀ x ∈ (selectStates sts f).map g, x.length = n := by
    intro x hx
    obtain ⟨s, hs, rfl⟩ := List.mem_map.mp hx
    exact hlen s (hsub s hs)
  obtain ⟨u, hu, hulen, hucol⟩ := pySum_arr_spec _ n hds_ne hds_len
  refine ⟨u, ?_, hulen, ?_⟩
  · rw [hmapM, Option.map_some', hu]
  · intro i hi
    rw [hucol i hi, List.map_map]
    rfl

theorem makeStatesList_data (r : SimResult)
    (dat : Bool → Bool → ℕ → List ℚ) (nt : ℕ) (hw : WFResult r dat nt) :
    ∀ s ∈ makeStatesList r, s.data = some (gdat dat s) := by
  rw [makeStatesList_eq]
  intro s hs
  fin_cases hs <;> exact hw.1 _ _ _

theorem selectStates_true (sts : List State) :
    selectStates sts (fun _ _ _ => true) = sts := by
  simp [selectStates]

theorem makeStates_spec (r : SimResult) (dat : Bool → Bool → ℕ → List ℚ)
    (nt : ℕ) (hw : WFResult r dat nt) :
    ∃ T : Series,
      sumStates (makeStatesList r) (fun _ _ _ => true) =
        some (NpVal.arr T) ∧
      T.length = nt ∧
      (∀ i, i < nt → T.getD i 0 = NpFloat.fin
        (((makeStatesList r).map (fun s =>
          (dat s.is_ligand s.is_phosphorylated s.methylation).getD i 0)).sum)) ∧
      makeStates r = some ((makeStatesList r).map
        (fun s => setNominalValue s (NpVal.arr T))) := by
  have hdata := makeStatesList_data r dat nt hw
  have hglen : ∀ s ∈ makeStatesList r, (gdat dat s).length = nt := by
    intro s _
    simpa [gdat] using hw.2 _ _ _
  have hne : selectStates (makeStatesList r) (fun _ _ _ => true) ≠ [] := by
    rw [selectStates_true, makeStatesList_eq]
    simp
  obtain ⟨T, hT, hTlen, hTcol⟩ := aggStates_spec State.data (gdat dat)
    (makeStatesList r) (fun _ _ _ => true) nt hdata hglen hne
  refine ⟨T, hT, hTlen, ?_, ?_⟩
  · intro i hi
    rw [hTcol i hi, selectStates_true]
    have hcell : ∀ s ∈ makeStatesList r, (gdat dat s).getD i 0 =
        NpFloat.fin
          ((dat s.is_ligand s.is_phosphorylated s.methylation).getD i 0) := by
      intro s _
      have hl : i < (dat s.is_ligand s.is_phosphorylated s.methylation).length := by
        rw [hw.2]; omega
      rw [gdat, List.getD_eq_getElem _ _ (by simpa using hl),
        List.getElem_map, List.getD_eq_getElem _ _ hl]
    rw [List.map_congr_left hcell]
    have hcomp : (makeStatesList r).map (fun s => NpFloat.fin
        ((dat s.is_ligand s.is_phosphorylated s.methylation).getD i 0)) =
        ((makeStatesList r).map (fun s =>
          (dat s.is_ligand s.is_phosphorylated s.methylation).getD i 0)).map
            NpFloat.fin := by
      rw [List.map_map]
      rfl
    rw [hcomp, map_fin_sum]
  · have hT2 : sumStates (makeStatesList r) (fun _ _ _ => true) =
        some (NpVal.arr T) := hT
    unfold makeStates
    show (match sumStates (makeStatesList r) (fun _ _ _ => true) with
      | none => none
      | some total => some ((makeStatesList r).map
          (fun s => setNominalValue s total))) =
        some ((makeStatesList r).map
          (fun s => setNominalValue s (NpVal.arr T)))
    rw [hT2]

theorem makeStates_attrs (r : SimResult) (T : Series) :
    ((makeStatesList r).map
      (fun s => setNominalValue s (NpVal.arr T))).map stateAttrs =
        tupleList := rfl

theorem makeStates_nominal (r : SimResult)
    (dat : Bool → Bool → ℕ → List ℚ) (nt : ℕ) (hw : WFResult r dat nt)
    (T : Series) :
    ∀ s ∈ (makeStatesList r).map (fun x => setNominalValue x (NpVal.arr T)),
      s.data = some (gdat dat s) ∧
      s.nominal = some (List.zipWith npDiv (gdat dat s) T) := by
  intro s hs
  obtain ⟨s0, hs0, rfl⟩ := List.mem_map.mp hs
  have hd := makeStatesList_data r dat nt hw s0 hs0
  refine ⟨hd, ?_⟩
  show s0.data.map (fun d => divSeries d (NpVal.arr T)) = _
  rw [hd]
  rfl

theorem mem_of_attrs (sts : List State)
    (hattr : sts.map stateAttrs = tupleList) (t : Bool × Bool × ℕ)
    (ht : t ∈ tupleList) : ∃ s ∈ sts, stateAttrs s = t := by
  rw [← hattr] at ht
  exact List.mem_map.mp ht

theorem badBool_false_cases (c : Char) (h : badBool c = false) :
    c = '_' ∨ c = 'T' ∨ c = 'F' := by
  by_cases h1 : c = '_'
  · exact .inl h1
  · by_cases h2 : c = 'T'
    · exact .inr (.inl h2)
    · exact .inr (.inr ((by simpa [badBool] using h :
        ¬c = '_' → ¬c = 'T' → c = 'F') h1 h2))

theorem badMeth_false_cases (c : Char) (h : badMeth c = false) :
    c = '_' ∨ c = '2' ∨ c = '3' ∨ c = '4' := by
  by_cases h1 : c = '_'
  · exact .inl h1
  · by_cases h2 : c = '2'
    · exact .inr (.inl h2)
    · by_cases h3 : c = '3'
      · exact .inr (.inr (.inl h3))
      · exact .inr (.inr (.inr ((by simpa [badMeth] using h :
          ¬c = '_' → ¬c = '2' → ¬c = '3' → c = '4') h1 h2 h3)))

theorem getFunc_charMatcher_bool (name : List Char) (pos : ℕ) (c : Char)
    (hget : name[pos]? = some c) (h : badBool c = false) :
    getFunc name pos validBool = .ok (charMatcher c) := by
  rcases getFunc_bool_ok name pos c hget h with ⟨hc, he⟩ | ⟨hc, he⟩ | ⟨hc, he⟩ <;>
    subst hc <;> simp [he] <;> decide

theorem getFunc_charMatcher_meth (name : List Char) (pos : ℕ) (c : Char)
    (hget : name[pos]? = some c) (h : badMeth c = false) :
    getFunc name pos validMeth = .ok (charMatcher c) := by
  rcases getFunc_meth_ok name pos c hget h with
    ⟨hc, he⟩ | ⟨hc, he⟩ | ⟨hc, he⟩ | ⟨hc, he⟩ <;>
      subst hc <;> simp [he] <;> decide

theorem v_valid_t (sts : List State) (c0 c1 c2 c3 : Char) (val : NpVal)
    (hb1 : badBool c1 = false) (hb2 : badBool c2 = false)
    (hb3 : badMeth c3 = false) (hc0 : c0 = 't')
    (hsum : sumStates sts (patternPred [c0, c1, c2, c3]) = some val) :
    v sts [c0, c1, c2, c3] = .ok val := by
  have h1 := getFunc_charMatcher_bool [c0, c1, c2, c3] 1 c1 rfl hb1
  have h2 := getFunc_charMatcher_bool [c0, c1, c2, c3] 2 c2 rfl hb2
  have h3 := getFunc_charMatcher_meth [c0, c1, c2, c3] 3 c3 rfl hb3
  have hpp : patternPred [c0, c1, c2, c3] = fun l p m =>
      applyB (charMatcher c1) l && applyB (charMatcher c2) p &&
        applyM (charMatcher c3) m := by
    funext l p m
    simp [patternPred]
  rw [hpp] at hsum
  unfold v
  rw [if_neg (by simp)]
  rw [h1, h2, h3]
  simp only [Bind.bind, Except.bind]
  rw [if_pos (by simp [hc0] : ([c0, c1, c2, c3][0]? = some 't')), hsum]

theorem v_valid_f (sts : List State) (c0 c1 c2 c3 : Char) (val : NpVal)
    (hb1 : badBool c1 = false) (hb2 : badBool c2 = false)
    (hb3 : badMeth c3 = false) (hc0 : c0 ≠ 't')
    (hfrc : frcStates sts (patternPred [c0, c1, c2, c3]) = some val) :
    v sts [c0, c1, c2, c3] = .ok val := by
  have h1 := getFunc_charMatcher_bool [c0, c1, c2, c3] 1 c1 rfl hb1
  have h2 := getFunc_charMatcher_bool [c0, c1, c2, c3] 2 c2 rfl hb2
  have h3 := getFunc_charMatcher_meth [c0, c1, c2, c3] 3 c3 rfl hb3
  have hpp : patternPred [c0, c1, c2, c3] = fun l p m =>
      applyB (charMatcher c1) l && applyB (charMatcher c2) p &&
        applyM (charMatcher c3) m := by
    funext l p m
    simp [patternPred]
  rw [hpp] at hfrc
  unfold v
  rw [if_neg (by simp)]
  rw [h1, h2, h3]
  simp only [Bind.bind, Except.bind]
  rw [if_neg (by simp [hc0] : ¬([c0, c1, c2, c3][0]? = some 't')), hfrc]

theorem mapped_states_ne_nil (r : SimResult) (T : Series) :
    (makeStatesList r).map (fun x => setNominalValue x (NpVal.arr T)) ≠ [] := by
  rw [makeStatesList_eq]
  simp

theorem gnom_length (r : SimResult) (dat : Bool → Bool → ℕ → List ℚ)
    (nt : ℕ) (hw : WFResult r dat nt) (T : Series) (hTlen : T.length = nt) :
    ∀ s ∈ (makeStatesList r).map (fun x => setNominalValue x (NpVal.arr T)),
      (List.zipWith npDiv (gdat dat s) T).length = nt := by
  intro s hs
  obtain ⟨s0, hs0, rfl⟩ := List.mem_map.mp hs
  have hg : (gdat dat (setNominalValue s0 (NpVal.arr T))).length = nt := by
    simp [gdat, setNominalValue, hw.2]
  rw [List.length_zipWith, hTlen, hg]
  omega

theorem gdat_length (r : SimResult) (dat : Bool → Bool → ℕ → List ℚ)
    (nt : ℕ) (hw : WFResult r dat nt) (T : Series) :
    ∀ s ∈ (makeStatesList r).map (fun x => setNominalValue x (NpVal.arr T)),
      (gdat dat s).length = nt := by
  intro s _
  simp [gdat, hw.2]

theorem getD_map_fin (l : List ℚ) (i : ℕ) (h : i < l.length) :
    (l.map NpFloat.fin).getD i 0 = NpFloat.fin (l.getD i 0) := by
  rw [List.getD_eq_getElem _ _ (by simpa using h), List.getElem_map,
    List.getD_eq_getElem _ _ h]

theorem ext_getD (l1 l2 : List NpFloat) (hl : l1.length = l2.length)
    (h : ∀ i, i < l1.length → l1.getD i 0 = l2.getD i 0) : l1 = l2 := by
  apply List.ext_getElem hl
  intro i h1 h2
  have hi := h i h1
  rwa [List.getD_eq_getElem _ _ h1, List.getD_eq_getElem _ _ h2] at hi

theorem zipWith_getD (f : NpFloat → NpFloat → NpFloat) (xs ys : List NpFloat)
    (i : ℕ) (h1 : i < xs.length) (h2 : i < ys.length) :
    (List.zipWith f xs ys).getD i 0 = f (xs.getD i 0) (ys.getD i 0) := by
  rw [List.getD_eq_getElem _ _
      (by rw [List.length_zipWith]; omega : i < (List.zipWith f xs ys).length),
    List.getElem_zipWith, List.getD_eq_getElem _ _ h1,
    List.getD_eq_getElem _ _ h2]

theorem applyB_self (c : Char) (h : badBool c = false) :
    applyB (charMatcher c) (decide (c = 'T')) = true := by
  rcases badBool_false_cases c h with rfl | rfl | rfl <;> decide

theorem applyM_self (c : Char) (h : badMeth c = false) :
    applyM (charMatcher c)
      (if c = '2' then 2 else if c = '3' then 3 else
        if c = '4' then 4 else 2) = true := by
  rcases badMeth_false_cases c h with rfl | rfl | rfl | rfl <;> decide

theorem tuple_mem (c1 c2 c3 : Char) (hb1 : badBool c1 = false)
    (hb2 : badBool c2 = false) (hb3 : badMeth c3 = false) :
    (decide (c1 = 'T'), decide (c2 = 'T'),
      if c3 = '2' then 2 else if c3 = '3' then 3 else
        if c3 = '4' then 4 else (2 : ℕ)) ∈ tupleList := by
  rcases badBool_false_cases c1 hb1 with rfl | rfl | rfl <;>
    rcases badBool_false_cases c2 hb2 with rfl | rfl | rfl <;>
      rcases badMeth_false_cases c3 hb3 with rfl | rfl | rfl | rfl <;> decide

/-! ### Claim theorems -/

/-- C1: for every attribute tuple (ligand, phosphorylation, methylation in
`{2,3,4}`), the derived name is the concatenation of `"LT"`/`"T"`, the
methylation digit, and the `"p"` suffix; the tuple `(true, true, 3)` yields
`"LT3p"`; the encoding is injective on the valid tuples. -/
theorem C1_name_encoding_injective :
    (∀ l p : Bool, ∀ m ∈ methylations,
      makeName l p m =
        (if l then "LT" else "T") ++ toString m ++
          (if p then "p" else "")) ∧
    makeName true true 3 = "LT3p" ∧
    (∀ l p : Bool, ∀ m ∈ methylations, ∀ x y : Bool, ∀ w ∈ methylations,
      makeName l p m = makeName x y w → l = x ∧ p = y ∧ m = w) := by
  refine ⟨by decide, rfl, by decide⟩

/-- C1 witness: the theorem applied at the concrete tuples
`(true, true, 3)` and `(true, true, 3)`. -/
theorem C1_name_encoding_injective_witness :
    (3 ∈ methylations) ∧
    makeName true true 3 =
      (if true then "LT" else "T") ++ toString 3 ++
        (if true then "p" else "") ∧
    (true = true ∧ true = true ∧ 3 = 3) :=
  ⟨by decide,
   C1_name_encoding_injective.1 true true 3 (by decide),
   C1_name_encoding_injective.2.2 true true 3 (by decide) true true 3
     (by decide) rfl⟩

/-- C5: `v` fails before any aggregation runs whenever the pattern length
is not 4, a non-wildcard character at boolean position 1 or 2 is not
`T`/`F`, or a non-wildcard character at methylation position 3 is not a
digit in `{2,3,4}`; for a bad character the error message names the
offending character and its position. -/
theorem C5_invalid_pattern_error (states : List State) (name : List Char) :
    (name.length ≠ 4 → v states name = .error "Name must be 4 characters.") ∧
    (name.length = 4 →
      ∀ c1 c2 c3, name[1]? = some c1 → name[2]? = some c2 →
        name[3]? = some c3 →
        (badBool c1 = true ∨ badBool c2 = true ∨ badMeth c3 = true) →
        ∃ pos c, v states name = .error (invalidMsg name c pos) ∧
          name[pos]? = some c ∧
          ((pos = 1 ∧ badBool c = true) ∨ (pos = 2 ∧ badBool c = true) ∨
            (pos = 3 ∧ badMeth c = true))) := by
  constructor
  · intro h
    simp [v, h]
  · intro hlen c1 c2 c3 h1 h2 h3 hbad
    by_cases b1 : badBool c1 = true
    · refine ⟨1, c1, ?_, h1, .inl ⟨rfl, b1⟩⟩
      have he := getFunc_bool_bad name 1 c1 h1 b1
      simp [v, hlen, he, Bind.bind, Except.bind]
    · have b1f : badBool c1 = false := by
        revert b1; cases badBool c1 <;> simp
      have hm1 : ∃ mt, getFunc name 1 validBool = .ok mt := by
        rcases getFunc_bool_ok name 1 c1 h1 b1f with ⟨_, h⟩ | ⟨_, h⟩ | ⟨_, h⟩ <;>
          exact ⟨_, h⟩
      obtain ⟨m1, hm1⟩ := hm1
      by_cases b2 : badBool c2 = true
      · refine ⟨2, c2, ?_, h2, .inr (.inl ⟨rfl, b2⟩)⟩
        have he := getFunc_bool_bad name 2 c2 h2 b2
        simp [v, hlen, hm1, he, Bind.bind, Except.bind]
      · have b2f : badBool c2 = false := by
          revert b2; cases badBool c2 <;> simp
        have hm2 : ∃ mt, getFunc name 2 validBool = .ok mt := by
          rcases getFunc_bool_ok name 2 c2 h2 b2f with ⟨_, h⟩ | ⟨_, h⟩ | ⟨_, h⟩ <;>
            exact ⟨_, h⟩
        obtain ⟨m2, hm2⟩ := hm2
        have b3 : badMeth c3 = true := by
          rcases hbad with hb | hb | hb
          · exact absurd hb b1
          · exact absurd hb b2
          · exact hb
        refine ⟨3, c3, ?_, h3, .inr (.inr ⟨rfl, b3⟩)⟩
        have he := getFunc_meth_bad name 3 c3 h3 b3
        simp [v, hlen, hm1, hm2, he, Bind.bind, Except.bind]

/-- C5 witness: the theorem applied to the concrete bad patterns
`"toolong"` (wrong length) and `"tX_3"` (bad character at position 1). -/
theorem C5_invalid_pattern_error_witness :
    (String.toList "toolong").length ≠ 4 ∧
    v [] (String.toList "toolong") = .error "Name must be 4 characters." ∧
    ∃ pos c, v [] (String.toList "tX_3") =
        .error (invalidMsg (String.toList "tX_3") c pos) ∧
      (String.toList "tX_3")[pos]? = some c ∧
      ((pos = 1 ∧ badBool c = true) ∨ (pos = 2 ∧ badBool c = true) ∨
        (pos = 3 ∧ badMeth c = true)) := by
  refine ⟨by decide, (C5_invalid_pattern_error [] _).1 (by decide), ?_⟩
  exact (C5_invalid_pattern_error [] _).2 (by decide) 'X' '_' '3' rfl rfl rfl
    (.inl (by decide))

/-- C6 counterexample: with the one-sample result table mapping every name
to `[1]`, a predicate matching no state makes `sumStates` return the
Python integer scalar `0` (builtin `sum` of an empty list), which is not
the zero-filled series `[0]` of the simulation's time length. -/
theorem C6_counterexample :
    sumStates ((makeStates (fun _ => some [NpFloat.fin 1])).getD [])
        (fun _ _ _ => false) = some (NpVal.scalar 0) ∧
    NpVal.scalar 0 ≠ NpVal.arr [NpFloat.fin 0] := by
  exact ⟨by decide, by decide⟩

/-- C6 amended: for every predicate selecting no state, `sumStates` does
not raise and returns the integer scalar `0` (not a series). -/
theorem C6_no_match_sum (states : List State)
    (func : Bool → Bool → ℕ → Bool)
    (h : selectStates states func = []) :
    sumStates states func = some (NpVal.scalar 0) := by
  unfold sumStates
  rw [h]
  rfl

/-- C6 witness: the amended theorem applied to the enumerated states of a
concrete result table and the never-true predicate. -/
theorem C6_no_match_sum_witness :
    selectStates (makeStatesList (fun _ => some [NpFloat.fin 1]))
        (fun _ _ _ => false) = [] ∧
    sumStates (makeStatesList (fun _ => some [NpFloat.fin 1]))
        (fun _ _ _ => false) = some (NpVal.scalar 0) :=
  ⟨rfl, C6_no_match_sum _ _ rfl⟩

/-- C7: when the derived name is absent from the result table, the code
swallows the lookup error: `_extractData` returns Python `None` and the
constructed `State` carries `None` as its data series (the claim says the
error must be surfaced; the code contradicts it). -/
theorem C7_missing_name_swallowed (r : SimResult) (l p : Bool) (m : ℕ)
    (h : r (makeName l p m) = none) :
    extractData r (makeName l p m) = none ∧
    (mkState l p m r).data = none := by
  exact ⟨h, by simp [mkState, extractData, h]⟩

/-- C7 witness: the theorem applied to the empty result table and the
tuple `(false, false, 2)` (derived name `"T2"`). -/
theorem C7_missing_name_swallowed_witness :
    extractData (fun _ => none) (makeName false false 2) = none ∧
    (mkState false false 2 (fun _ => none)).data = none :=
  C7_missing_name_swallowed (fun _ => none) false false 2 rfl

/-- C8 counterexample: dividing the raw series `[1]` by the total series
`[0]` stores the IEEE infinity — the division is not handled explicitly,
contradicting the claim that no infinite/NaN value is produced. -/
theorem C8_zero_divisor_counterexample :
    (setNominalValue (mkState false false 2 (fun _ => some [NpFloat.fin 1]))
        (NpVal.arr [NpFloat.fin 0])).nominal = some [NpFloat.inf] := by
  decide

/-- C8 amended: `setNominalValue` divides unguarded; at a time point where
the total is zero and the raw value is the finite `a`, the stored nominal
value is NaN when `a = 0`, `+inf` when `a > 0`, `-inf` when `a < 0`. -/
theorem C8_zero_divisor_amended (s : State) (d t : Series) (i : ℕ) (a : ℚ)
    (hd : s.data = some d) (hdi : d[i]? = some (NpFloat.fin a))
    (hti : t[i]? = some (NpFloat.fin 0)) :
    ∃ nom, (setNominalValue s (NpVal.arr t)).nominal = some nom ∧
      nom[i]? = some (if a = 0 then NpFloat.nan
        else if 0 < a then NpFloat.inf else NpFloat.neginf) := by
  refine ⟨divSeries d (NpVal.arr t), by simp [setNominalValue, hd], ?_⟩
  obtain ⟨hid, hdg⟩ := List.getElem?_eq_some.mp hdi
  obtain ⟨hit, htg⟩ := List.getElem?_eq_some.mp hti
  have hlen : i < (List.zipWith npDiv d t).length := by
    rw [List.length_zipWith]; omega
  rw [divSeries, List.getElem?_eq_getElem hlen, List.getElem_zipWith,
    hdg, htg]
  simp [npDiv]

/-- C8 witness: the amended theorem applied to raw series `[1]` and total
series `[0]` at index `0`. -/
theorem C8_zero_divisor_amended_witness :
    ∃ nom, (setNominalValue
        (mkState false false 2 (fun _ => some [NpFloat.fin 1]))
        (NpVal.arr [NpFloat.fin 0])).nominal = some nom ∧
      nom[0]? = some (if (1 : ℚ) = 0 then NpFloat.nan
        else if 0 < (1 : ℚ) then NpFloat.inf else NpFloat.neginf) :=
  C8_zero_divisor_amended _ [NpFloat.fin 1] [NpFloat.fin 0] 0 1 rfl rfl rfl

/-- C9: when a name is none of the reserved names, the aggregation factory
raises on it, and it is not a column of the result table, `getVariable`
fails with the not-found error whose message names the variable. -/
theorem C9_unresolved_not_found (result : SimResult) (states : List State)
    (name : String) (h1 : name ≠ "time") (h2 : name ≠ "fYp")
    (h3 : name ≠ "fBp") (h4 : ∀ value, v states name.data ≠ .ok value)
    (h5 : result name = none) :
    getVariable result states name =
      .error ("Variable " ++ name ++ " not found.") := by
  rw [getVariable, if_neg h1, if_neg h2, if_neg h3]
  have hres : resolvePlain result states name = none := by
    rw [resolvePlain]
    cases hv : v states name.data with
    | ok value => exact absurd hv (h4 value)
    | error e => rw [h5]; rfl
  rw [hres]

/-- C9 witness: the theorem applied to the empty result table and the
unresolvable name `"zzz"`. -/
theorem C9_unresolved_not_found_witness :
    getVariable (fun _ => none) [] "zzz" =
      .error ("Variable " ++ "zzz" ++ " not found.") :=
  C9_unresolved_not_found (fun _ => none) [] "zzz" (by decide) (by decide)
    (by decide)
    (fun value hv => by
      rw [show v [] (String.data "zzz") =
        .error "Name must be 4 characters." from rfl] at hv
      exact Except.noConfusion hv)
    rfl

/-- C3: `ReceptorStates` enumerates exactly 12 states in the fixed order
ligand outermost, then phosphorylation, then methylation innermost;
`selectStates` returns a subsequence of that enumeration for every
predicate; the always-true predicate returns all 12 states. -/
theorem C3_enumeration_selection (r : SimResult)
    (dat : Bool → Bool → ℕ → List ℚ) (nt : ℕ) (hw : WFResult r dat nt) :
    ∃ sts, makeStates r = some sts ∧
      sts.length = 12 ∧
      sts.map stateAttrs = tupleList ∧
      (∀ f, (selectStates sts f).Sublist sts) ∧
      selectStates sts (fun _ _ _ => true) = sts := by
  obtain ⟨T, _, _, _, hmk⟩ := makeStates_spec r dat nt hw
  refine ⟨_, hmk, ?_, makeStates_attrs r T, fun f => List.filter_sublist _,
    selectStates_true _⟩
  rw [makeStatesList_eq]
  rfl

/-- C3 witness: the theorem applied to the concrete one-sample result table
mapping every name to `[1]`. -/
theorem C3_enumeration_selection_witness :
    WFResult (fun _ => some [NpFloat.fin 1]) (fun _ _ _ => [(1 : ℚ)]) 1 ∧
    ∃ sts, makeStates (fun _ => some [NpFloat.fin 1]) = some sts ∧
      sts.length = 12 ∧
      sts.map stateAttrs = tupleList ∧
      (∀ f, (selectStates sts f).Sublist sts) ∧
      selectStates sts (fun _ _ _ => true) = sts :=
  ⟨⟨fun _ _ _ => rfl, fun _ _ _ => rfl⟩,
   C3_enumeration_selection (fun _ => some [NpFloat.fin 1])
     (fun _ _ _ => [(1 : ℚ)]) 1 ⟨fun _ _ _ => rfl, fun _ _ _ => rfl⟩⟩

/-- C2: the construction computes the global total once, as the sum over
the full unfiltered state set; every state's nominal series is its raw
series divided element-wise by that total; consequently `frcStates` of the
always-true predicate equals 1 at every time point where the total is a
nonzero (finite) value. -/
theorem C2_global_normalization (r : SimResult)
    (dat : Bool → Bool → ℕ → List ℚ) (nt : ℕ) (hw : WFResult r dat nt) :
    ∃ sts T F,
      makeStates r = some sts ∧
      sumStates (makeStatesList r) (fun _ _ _ => true) =
        some (NpVal.arr T) ∧
      (∀ s ∈ sts, ∃ d, s.data = some d ∧
        s.nominal = some (List.zipWith npDiv d T)) ∧
      frcStates sts (fun _ _ _ => true) = some (NpVal.arr F) ∧
      T.length = nt ∧ F.length = nt ∧
      (∀ i q, i < nt → T.getD i 0 = NpFloat.fin q → q ≠ 0 →
        F.getD i 0 = NpFloat.fin 1) := by
  obtain ⟨T, hT, hTlen, hTcol, hmk⟩ := makeStates_spec r dat nt hw
  have hnom := makeStates_nominal r dat nt hw T
  have hne : selectStates ((makeStatesList r).map
      (fun x => setNominalValue x (NpVal.arr T))) (fun _ _ _ => true) ≠ [] := by
    rw [selectStates_true]
    exact mapped_states_ne_nil r T
  obtain ⟨F, hF, hFlen, hFcol⟩ := aggStates_spec State.nominal
    (fun s => List.zipWith npDiv (gdat dat s) T)
    ((makeStatesList r).map (fun x => setNominalValue x (NpVal.arr T)))
    (fun _ _ _ => true) nt (fun s hs => (hnom s hs).2)
    (gnom_length r dat nt hw T hTlen) hne
  refine ⟨_, T, F, hmk, hT, ?_, hF, hTlen, hFlen, ?_⟩
  · intro s hs
    exact ⟨gdat dat s, (hnom s hs).1, (hnom s hs).2⟩
  · intro i q hi hTq hq
    rw [hFcol i hi, selectStates_true]
    have hTq2 := hTcol i hi
    rw [hTq] at hTq2
    have hq_eq : q = ((makeStatesList r).map (fun s =>
        (dat s.is_ligand s.is_phosphorylated s.methylation).getD i 0)).sum := by
      simpa using hTq2
    have hcell : ∀ s ∈ (makeStatesList r).map
        (fun x => setNominalValue x (NpVal.arr T)),
        (List.zipWith npDiv (gdat dat s) T).getD i 0 =
          NpFloat.fin
            ((dat s.is_ligand s.is_phosphorylated s.methylation).getD i 0 / q) := by
      intro s hs
      have hgl : (gdat dat s).length = nt := gdat_length r dat nt hw T s hs
      have hdl : i < (dat s.is_ligand s.is_phosphorylated s.methylation).length := by
        rw [hw.2]; omega
      have hg : (gdat dat s).getD i 0 = NpFloat.fin
          ((dat s.is_ligand s.is_phosphorylated s.methylation).getD i 0) :=
        getD_map_fin _ i hdl
      rw [zipWith_getD npDiv (gdat dat s) T i (by omega) (by omega),
        hg, hTq]
      simp [npDiv, hq]
    rw [List.map_congr_left hcell]
    have hcomp : ((makeStatesList r).map
        (fun x => setNominalValue x (NpVal.arr T))).map (fun s => NpFloat.fin
          ((dat s.is_ligand s.is_phosphorylated s.methylation).getD i 0 / q)) =
        (((makeStatesList r).map
          (fun x => setNominalValue x (NpVal.arr T))).map (fun s =>
            (dat s.is_ligand s.is_phosphorylated s.methylation).getD i 0 / q)).map
              NpFloat.fin := by
      rw [List.map_map]
      rfl
    rw [hcomp, map_fin_sum]
    congr 1
    have hattr_map : ((makeStatesList r).map
        (fun x => setNominalValue x (NpVal.arr T))).map (fun s =>
          (dat s.is_ligand s.is_phosphorylated s.methylation).getD i 0 / q) =
        (makeStatesList r).map (fun s =>
          (dat s.is_ligand s.is_phosphorylated s.methylation).getD i 0 / q) := by
      rw [List.map_map]
      rfl
    rw [hattr_map]
    have hdiv : (makeStatesList r).map (fun s =>
        (dat s.is_ligand s.is_phosphorylated s.methylation).getD i 0 / q) =
        (makeStatesList r).map (fun s =>
          (dat s.is_ligand s.is_phosphorylated s.methylation).getD i 0 * q⁻¹) := by
      simp [div_eq_mul_inv]
    rw [hdiv, List.sum_map_mul_right, ← hq_eq, mul_inv_cancel₀ hq]

/-- C2 witness: the theorem applied to the concrete one-sample result table
mapping every name to `[1]` (total `12 ≠ 0` at the only time point). -/
theorem C2_global_normalization_witness :
    WFResult (fun _ => some [NpFloat.fin 1]) (fun _ _ _ => [(1 : ℚ)]) 1 ∧
    ∃ sts T F,
      makeStates (fun _ => some [NpFloat.fin 1]) = some sts ∧
      sumStates (makeStatesList (fun _ => some [NpFloat.fin 1]))
        (fun _ _ _ => true) = some (NpVal.arr T) ∧
      (∀ s ∈ sts, ∃ d, s.data = some d ∧
        s.nominal = some (List.zipWith npDiv d T)) ∧
      frcStates sts (fun _ _ _ => true) = some (NpVal.arr F) ∧
      T.length = 1 ∧ F.length = 1 ∧
      (∀ i q, i < 1 → T.getD i 0 = NpFloat.fin q → q ≠ 0 →
        F.getD i 0 = NpFloat.fin 1) :=
  ⟨⟨fun _ _ _ => rfl, fun _ _ _ => rfl⟩,
   C2_global_normalization (fun _ => some [NpFloat.fin 1])
     (fun _ _ _ => [(1 : ℚ)]) 1 ⟨fun _ _ _ => rfl, fun _ _ _ => rfl⟩⟩

/-- C10: for every predicate, `selectStates` of the predicate and of its
negation partition the enumerated state list; when both parts are
nonempty, `sumStates` (and `frcStates`) of the two parts add element-wise
to `sumStates` (resp. `frcStates`) of the always-true predicate. -/
theorem C10_partition_additivity (r : SimResult)
    (dat : Bool → Bool → ℕ → List ℚ) (nt : ℕ) (hw : WFResult r dat nt) :
    ∃ sts, makeStates r = some sts ∧
      ∀ f : Bool → Bool → ℕ → Bool,
        (selectStates sts f ++
          selectStates sts (fun l p m => !(f l p m))).Perm sts ∧
        (selectStates sts f ≠ [] →
          selectStates sts (fun l p m => !(f l p m)) ≠ [] →
          (∃ u w t, sumStates sts f = some (NpVal.arr u) ∧
            sumStates sts (fun l p m => !(f l p m)) = some (NpVal.arr w) ∧
            sumStates sts (fun _ _ _ => true) = some (NpVal.arr t) ∧
            List.zipWith npAdd u w = t) ∧
          (∃ u w t, frcStates sts f = some (NpVal.arr u) ∧
            frcStates sts (fun l p m => !(f l p m)) = some (NpVal.arr w) ∧
            frcStates sts (fun _ _ _ => true) = some (NpVal.arr t) ∧
            List.zipWith npAdd u w = t)) := by
  obtain ⟨T, hT, hTlen, hTcol, hmk⟩ := makeStates_spec r dat nt hw
  have hnom := makeStates_nominal r dat nt hw T
  refine ⟨_, hmk, ?_⟩
  intro f
  constructor
  · exact List.filter_append_perm _ _
  · intro hne1 hne2
    have hdata : ∀ s ∈ (makeStatesList r).map
        (fun x => setNominalValue x (NpVal.arr T)),
        s.data = some (gdat dat s) := fun s hs => (hnom s hs).1
    have hnomd : ∀ s ∈ (makeStatesList r).map
        (fun x => setNominalValue x (NpVal.arr T)),
        s.nominal = some (List.zipWith npDiv (gdat dat s) T) :=
      fun s hs => (hnom s hs).2
    have hneT : selectStates ((makeStatesList r).map
        (fun x => setNominalValue x (NpVal.arr T))) (fun _ _ _ => true) ≠ [] := by
      rw [selectStates_true]
      exact mapped_states_ne_nil r T
    have e1 : ∀ g : Bool → Bool → ℕ → Bool,
        selectStates ((makeStatesList r).map
          (fun x => setNominalValue x (NpVal.arr T))) g =
        ((makeStatesList r).map (fun x => setNominalValue x (NpVal.arr T))).filter
          (fun s => g s.is_ligand s.is_phosphorylated s.methylation) :=
      fun _ => rfl
    constructor
    · obtain ⟨u, hu, hulen, hucol⟩ := aggStates_spec State.data (gdat dat) _
        f nt hdata (gdat_length r dat nt hw T) hne1
      obtain ⟨w, hw2, hwlen, hwcol⟩ := aggStates_spec State.data (gdat dat) _
        (fun l p m => !(f l p m)) nt hdata (gdat_length r dat nt hw T) hne2
      obtain ⟨t, ht, htlen, htcol⟩ := aggStates_spec State.data (gdat dat) _
        (fun _ _ _ => true) nt hdata (gdat_length r dat nt hw T) hneT
      refine ⟨u, w, t, hu, hw2, ht, ?_⟩
      apply ext_getD _ _
        (by rw [List.length_zipWith, hulen, hwlen, htlen]; omega)
      intro i hzi
      have hi : i < nt := by
        rw [List.length_zipWith, hulen, hwlen] at hzi
        omega
      rw [zipWith_getD npAdd u w i (by omega) (by omega),
        hucol i hi, hwcol i hi, htcol i hi, selectStates_true, e1 f, e1 _]
      exact sum_map_filter_add _ _ _
    · obtain ⟨u, hu, hulen, hucol⟩ := aggStates_spec State.nominal
        (fun s => List.zipWith npDiv (gdat dat s) T) _
        f nt hnomd (gnom_length r dat nt hw T hTlen) hne1
      obtain ⟨w, hw2, hwlen, hwcol⟩ := aggStates_spec State.nominal
        (fun s => List.zipWith npDiv (gdat dat s) T) _
        (fun l p m => !(f l p m)) nt hnomd (gnom_length r dat nt hw T hTlen)
        hne2
      obtain ⟨t, ht, htlen, htcol⟩ := aggStates_spec State.nominal
        (fun s => List.zipWith npDiv (gdat dat s) T) _
        (fun _ _ _ => true) nt hnomd (gnom_length r dat nt hw T hTlen) hneT
      refine ⟨u, w, t, hu, hw2, ht, ?_⟩
      apply ext_getD _ _
        (by rw [List.length_zipWith, hulen, hwlen, htlen]; omega)
      intro i hzi
      have hi : i < nt := by
        rw [List.length_zipWith, hulen, hwlen] at hzi
        omega
      rw [zipWith_getD npAdd u w i (by omega) (by omega),
        hucol i hi, hwcol i hi, htcol i hi, selectStates_true, e1 f, e1 _]
      exact sum_map_filter_add _ _ _

/-- C10 witness: the theorem applied to the concrete one-sample result
table mapping every name to `[1]`. -/
theorem C10_partition_additivity_witness :
    WFResult (fun _ => some [NpFloat.fin 1]) (fun _ _ _ => [(1 : ℚ)]) 1 ∧
    ∃ sts, makeStates (fun _ => some [NpFloat.fin 1]) = some sts ∧
      ∀ f : Bool → Bool → ℕ → Bool,
        (selectStates sts f ++
          selectStates sts (fun l p m => !(f l p m))).Perm sts ∧
        (selectStates sts f ≠ [] →
          selectStates sts (fun l p m => !(f l p m)) ≠ [] →
          (∃ u w t, sumStates sts f = some (NpVal.arr u) ∧
            sumStates sts (fun l p m => !(f l p m)) = some (NpVal.arr w) ∧
            sumStates sts (fun _ _ _ => true) = some (NpVal.arr t) ∧
            List.zipWith npAdd u w = t) ∧
          (∃ u w t, frcStates sts f = some (NpVal.arr u) ∧
            frcStates sts (fun l p m => !(f l p m)) = some (NpVal.arr w) ∧
            frcStates sts (fun _ _ _ => true) = some (NpVal.arr t) ∧
            List.zipWith npAdd u w = t)) :=
  ⟨⟨fun _ _ _ => rfl, fun _ _ _ => rfl⟩,
   C10_partition_additivity (fun _ => some [NpFloat.fin 1])
     (fun _ _ _ => [(1 : ℚ)]) 1 ⟨fun _ _ _ => rfl, fun _ _ _ => rfl⟩⟩

/-- C4: for every valid 4-character pattern, `v` builds the conjunctive
per-position predicate and dispatches on the leading character (`'t'` to
`sumStates`, anything else to `frcStates`); every valid pattern selects a
nonempty state subset and yields a series of the time length (hence of the
same length as `v "t___"`); `v "t___"` equals `sumStates` of the
always-true predicate exactly. -/
theorem C4_pattern_dispatch (r : SimResult)
    (dat : Bool → Bool → ℕ → List ℚ) (nt : ℕ) (hw : WFResult r dat nt) :
    ∃ sts, makeStates r = some sts ∧
      (∀ pat, validPattern pat = true →
        selectStates sts (patternPred pat) ≠ [] ∧
        ∃ ys, v sts pat = .ok (NpVal.arr ys) ∧ ys.length = nt ∧
          (pat[0]? = some 't' →
            sumStates sts (patternPred pat) = some (NpVal.arr ys)) ∧
          (pat[0]? ≠ some 't' →
            frcStates sts (patternPred pat) = some (NpVal.arr ys))) ∧
      (∃ tv, sumStates sts (fun _ _ _ => true) = some tv ∧
        v sts (String.toList "t___") = .ok tv) := by
  obtain ⟨T, hT, hTlen, hTcol, hmk⟩ := makeStates_spec r dat nt hw
  have hnom := makeStates_nominal r dat nt hw T
  have hdata : ∀ s ∈ (makeStatesList r).map
      (fun x => setNominalValue x (NpVal.arr T)),
      s.data = some (gdat dat s) := fun s hs => (hnom s hs).1
  have hnomd : ∀ s ∈ (makeStatesList r).map
      (fun x => setNominalValue x (NpVal.arr T)),
      s.nominal = some (List.zipWith npDiv (gdat dat s) T) :=
    fun s hs => (hnom s hs).2
  have hattr := makeStates_attrs r T
  refine ⟨_, hmk, ?_, ?_⟩
  · intro pat hvalid
    have hv' := hvalid
    simp only [validPattern, Bool.and_eq_true, decide_eq_true_eq,
      Bool.not_eq_true'] at hv'
    obtain ⟨⟨⟨hl4, hb1'⟩, hb2'⟩, hb3'⟩ := hv'
    obtain ⟨c0, c1, c2, c3, rfl⟩ : ∃ a b c d, pat = [a, b, c, d] := by
      match pat, hl4 with
      | [a, b, c, d], _ => exact ⟨a, b, c, d, rfl⟩
    have hb1 : badBool c1 = false := hb1'
    have hb2 : badBool c2 = false := hb2'
    have hb3 : badMeth c3 = false := hb3'
    have hpp : patternPred [c0, c1, c2, c3] = fun l p m =>
        applyB (charMatcher c1) l && applyB (charMatcher c2) p &&
          applyM (charMatcher c3) m := by
      funext l p m
      simp [patternPred]
    have hne : selectStates ((makeStatesList r).map
        (fun x => setNominalValue x (NpVal.arr T)))
        (patternPred [c0, c1, c2, c3]) ≠ [] := by
      obtain ⟨s, hs, hat⟩ := mem_of_attrs _ hattr _ (tuple_mem c1 c2 c3 hb1 hb2 hb3)
      have h1 : s.is_ligand = decide (c1 = 'T') := congrArg Prod.fst hat
      have h2 : s.is_phosphorylated = decide (c2 = 'T') :=
        congrArg (fun u => u.2.1) hat
      have h3 : s.methylation = (if c3 = '2' then 2 else if c3 = '3' then 3
          else if c3 = '4' then 4 else 2) := congrArg (fun u => u.2.2) hat
      have hpred : patternPred [c0, c1, c2, c3] s.is_ligand
          s.is_phosphorylated s.methylation = true := by
        simp only [hpp]
        rw [h1, h2, h3]
        simp [applyB_self c1 hb1, applyB_self c2 hb2, applyM_self c3 hb3]
      exact List.ne_nil_of_mem (List.mem_filter.mpr ⟨hs, hpred⟩)
    refine ⟨hne, ?_⟩
    by_cases hc0 : c0 = 't'
    · obtain ⟨ys, hys, hyslen, _⟩ := aggStates_spec State.data (gdat dat) _
        (patternPred [c0, c1, c2, c3]) nt hdata (gdat_length r dat nt hw T) hne
      exact ⟨ys, v_valid_t _ c0 c1 c2 c3 (NpVal.arr ys) hb1 hb2 hb3 hc0 hys,
        hyslen, fun _ => hys,
        fun hn => absurd (show ([c0, c1, c2, c3][0]? = some 't') by
          simp [hc0]) hn⟩
    · obtain ⟨ys, hys, hyslen, _⟩ := aggStates_spec State.nominal
        (fun s => List.zipWith npDiv (gdat dat s) T) _
        (patternPred [c0, c1, c2, c3]) nt hnomd
        (gnom_length r dat nt hw T hTlen) hne
      exact ⟨ys, v_valid_f _ c0 c1 c2 c3 (NpVal.arr ys) hb1 hb2 hb3 hc0 hys,
        hyslen, fun hc => absurd (by simpa using hc) hc0, fun _ => hys⟩
  · have hneT : selectStates ((makeStatesList r).map
        (fun x => setNominalValue x (NpVal.arr T))) (fun _ _ _ => true) ≠ [] := by
      rw [selectStates_true]
      exact mapped_states_ne_nil r T
    obtain ⟨tv, htv, _, _⟩ := aggStates_spec State.data (gdat dat) _
      (fun _ _ _ => true) nt hdata (gdat_length r dat nt hw T) hneT
    refine ⟨NpVal.arr tv, htv, ?_⟩
    rw [show String.toList "t___" = ['t', '_', '_', '_'] from rfl]
    exact v_valid_t _ 't' '_' '_' '_' (NpVal.arr tv) (by decide) (by decide)
      (by decide) rfl
      (show sumStates _ (patternPred ['t', '_', '_', '_']) =
        some (NpVal.arr tv) from htv)

/-- C4 witness: the theorem applied to the concrete one-sample result table
mapping every name to `[1]`. -/
theorem C4_pattern_dispatch_witness :
    WFResult (fun _ => some [NpFloat.fin 1]) (fun _ _ _ => [(1 : ℚ)]) 1 ∧
    ∃ sts, makeStates (fun _ => some [NpFloat.fin 1]) = some sts ∧
      (∀ pat, validPattern pat = true →
        selectStates sts (patternPred pat) ≠ [] ∧
        ∃ ys, v sts pat = .ok (NpVal.arr ys) ∧ ys.length = 1 ∧
          (pat[0]? = some 't' →
            sumStates sts (patternPred pat) = some (NpVal.arr ys)) ∧
          (pat[0]? ≠ some 't' →
            frcStates sts (patternPred pat) = some (NpVal.arr ys))) ∧
      (∃ tv, sumStates sts (fun _ _ _ => true) = some tv ∧
        v sts (String.toList "t___") = .ok tv) :=
  ⟨⟨fun _ _ _ => rfl, fun _ _ _ => rfl⟩,
   C4_pattern_dispatch (fun _ => some [NpFloat.fin 1])
     (fun _ _ _ => [(1 : ℚ)]) 1 ⟨fun _ _ _ => rfl, fun _ _ _ => rfl⟩⟩

end BioCellControl
